import Mathlib

/-!
Verification of the resumable multi-source ingestion engine of
open-molecule-data-pipeline against its natural-language specification.

The Python sources are shallowly embedded: connectors' `fetch_pages`
generators become pure functions from the connector inputs (entry lists,
checkpoint, batch size, HTTP response oracle) to the list of produced
pages; records are treated as opaque values of a type parameter, exactly
as the paging logic treats them.  File-system effects (checkpoint store)
are modelled as explicit state passing over a path-to-content map.
-/

/-- Values that may occur in a serialized cursor mapping (JSON scalars).
Mirrors the restricted value set used by the checkpoint files. -/
inductive CVal where
  | s (v : String)
  | i (v : Int)
  | b (v : Bool)
  | null
deriving DecidableEq

/-- A cursor is an ordered key/value mapping, as produced by the Python
dict literals in the connectors (`src/src/ingestion/common.py` and the
connector modules). -/
abbrev Cursor := List (String × CVal)

/-- Embeds `IngestionPage` from `src/src/ingestion/common.py` (lines
31-35): a list of records plus an optional cursor.  Records are opaque
to the paging logic, hence the type parameter. -/
structure IngestionPage (α : Type) where
  records : List α
  next_cursor : Option Cursor
deriving DecidableEq

/-- Embeds `IngestionCheckpoint` from `src/src/ingestion/common.py`
(lines 38-43).  `batch_index` is a non-negative integer in the source
(the runner only ever writes natural numbers), so it is a `Nat` here. -/
structure IngestionCheckpoint where
  cursor : Cursor
  batch_index : Nat
  completed : Bool
deriving DecidableEq

/-- Reads an integer cursor entry the way the connectors do:
`int(checkpoint.cursor.get(key, 0))` (e.g. `chembl.py` lines 192-193).
Absent keys default to 0; the pipeline itself only ever stores
non-negative integers at these keys (record counts and indices), so the
result is a `Nat`; boolean values follow the Python `int()` coercion.  -/
def cursorGetNat (c : Cursor) (key : String) : Nat :=
  match c.find? (fun e => e.1 == key) with
  | some (_, CVal.i v) => v.toNat
  | some (_, CVal.b bv) => cond bv 1 0
  | _ => 0

/-- Records carried by a list of pages, in emission order. -/
def pagesRecords {α : Type} (ps : List (IngestionPage α)) : List α :=
  (ps.map (fun p => p.records)).flatten

/-! ### BaseHttpConnector.fetch_pages (src/src/ingestion/common.py lines 217-243)

The remote API is abstracted as the ordered list of parsed responses
the source would return: the i-th element is the pair of the record
list `_parse_records` extracts and the cursor value `_next_cursor`
extracts from the i-th response body.  The loop body is

    while True:
        request = self._build_request(next_cursor)
        response = execute_request(self._client, request)
        ...
        yield IngestionPage(records=records, next_cursor=cursor_state)
        if not cursor_state:
            break
        next_cursor = cursor_state

`if not cursor_state` is Python truthiness: it breaks both when
`cursor_state` is `None` and when it is an empty dict. -/

/-- Python truthiness of the optional cursor mapping `cursor_state`. -/
def cursorTruthy : Option Cursor → Bool
  | none => false
  | some m => !m.isEmpty

/-- The fetch loop of `BaseHttpConnector.fetch_pages`.  Returns the
yielded pages together with the list of cursors for which an HTTP
request was issued (one request per loop iteration). -/
def httpFetchLoop {α : Type} :
    List (List α × Option Cursor) → Cursor → List (IngestionPage α) × List Cursor
  | [], _cursor => ([], [])
  | (recs, cur) :: rest, cursor =>
    if cursorTruthy cur then
      let next := cur.getD []
      let res := httpFetchLoop rest next
      (⟨recs, cur⟩ :: res.1, cursor :: res.2)
    else ([⟨recs, cur⟩], [cursor])

/-- Embeds `BaseHttpConnector.fetch_pages` (lines 217-243): skip when
the loaded checkpoint is completed; otherwise loop from the checkpoint
cursor if a checkpoint exists, else from `config.start_cursor`. -/
def BaseHttpConnector.fetchPages {α : Type} (checkpoint : Option IngestionCheckpoint)
    (start_cursor : Cursor) (responses : List (List α × Option Cursor)) :
    List (IngestionPage α) × List Cursor :=
  match checkpoint with
  | some cp => if cp.completed then ([], []) else httpFetchLoop responses cp.cursor
  | none => httpFetchLoop responses start_cursor

/-! ### _persist_page (src/src/open_molecule_data_pipeline/ingestion/runner.py lines 150-177) -/

/-- Embeds `_persist_page`: returns the checkpoint it stores and whether
a batch file was written.  `cursor=page.next_cursor or {}` collapses
both `None` and the empty dict to `{}`; `completed=page.next_cursor is
None` is true only for explicit absence. -/
def persistPage {α : Type} (start_batch : Nat) (page : IngestionPage α) :
    IngestionCheckpoint × Bool :=
  if page.records.isEmpty then
    (⟨page.next_cursor.getD [], start_batch, page.next_cursor.isNone⟩, false)
  else
    (⟨page.next_cursor.getD [], start_batch + 1, page.next_cursor.isNone⟩, true)

/-! ### File-sequence connectors

`ChEMBLConnector.fetch_pages` (chembl.py lines 183-235) and
`PubChemConnector.fetch_pages` (pubchem.py lines 201-264) run the same
per-file loop: skip `record_offset` records of the first file, batch
records, yield a full page with cursor `{"file_index": fi, "file_name":
name, "record_offset": processed}` whenever the batch reaches
`batch_size`, and flush a leftover partial batch at the end of a file
with a cursor pointing at the next file (offset 0) or `None` when the
file was the last.  An entry is a pair of the file name and the record
list the file decodes to. -/

/-- Inner record loop shared by `ChEMBLConnector.fetch_pages` (chembl.py
lines 202-215) and `PubChemConnector.fetch_pages` (pubchem.py lines
228-244): recs remaining, records already iterated (`processed` /
`entry_index`), accumulated batch.  Returns the full pages yielded and
the leftover batch. -/
def fileSeqFileLoop {α : Type} (b fi : Nat) (fname : String) (off : Nat) :
    List α → Nat → List α → List (IngestionPage α) × List α
  | [], _processed, batch => ([], batch)
  | r :: rs, processed, batch =>
    if processed < off then fileSeqFileLoop b fi fname off rs (processed + 1) batch
    else
      let batch2 := batch ++ [r]
      let processed2 := processed + 1
      if b ≤ batch2.length then
        let c : Cursor :=
          [("file_index", CVal.i fi), ("file_name", CVal.s fname),
           ("record_offset", CVal.i processed2)]
        let res := fileSeqFileLoop b fi fname off rs processed2 []
        (⟨batch2, some c⟩ :: res.1, res.2)
      else fileSeqFileLoop b fi fname off rs processed2 batch2

/-- Outer file loop shared by chembl.py lines 197-232 and pubchem.py
lines 225-261.  `total` is the length of the full entry list; `ents` is
the suffix of entries still to process, aligned so that its head has
index `fi`; the flush cursor for a partial batch names the next file
(the head of the remaining suffix), mirroring
`entries[file_index + 1].filename if file_index + 1 < len(entries) else None`. -/
def fileSeqPages {α : Type} (b total : Nat) :
    Nat → List (String × List α) → Nat → List (IngestionPage α)
  | _fi, [], _off => []
  | fi, (fname, recs) :: rest, off =>
    let res := fileSeqFileLoop b fi fname off recs 0 []
    let flush : List (IngestionPage α) :=
      if res.2.isEmpty then []
      else
        let nc : Option Cursor :=
          if fi + 1 < total then
            some [("file_index", CVal.i (fi + 1)),
                  ("file_name",
                    match rest.head? with
                    | some e => CVal.s e.1
                    | none => CVal.null),
                  ("record_offset", CVal.i 0)]
          else none
        [⟨res.2, nc⟩]
    res.1 ++ flush ++ fileSeqPages b total (fi + 1) rest 0

/-- Embeds `ChEMBLConnector.fetch_pages` (chembl.py lines 183-235):
completed checkpoint short-circuits to no pages; otherwise the file loop
runs from the checkpoint cursor (`file_index`, `record_offset`), and an
empty entry list yields exactly one empty page with no cursor. -/
def ChEMBLConnector.fetchPages {α : Type} (checkpoint : Option IngestionCheckpoint)
    (entries : List (String × List α)) (b : Nat) : List (IngestionPage α) :=
  match checkpoint with
  | some cp =>
    if cp.completed then []
    else
      let sf := cursorGetNat cp.cursor "file_index"
      let so := cursorGetNat cp.cursor "record_offset"
      fileSeqPages b entries.length sf (entries.drop sf) so
        ++ (if entries.isEmpty then [⟨[], none⟩] else [])
  | none =>
    fileSeqPages b entries.length 0 entries 0
      ++ (if entries.isEmpty then [⟨[], none⟩] else [])

/-- Embeds `PubChemConnector.fetch_pages` (pubchem.py lines 201-264):
completed checkpoint short-circuits; a start file index at or past the
end of the listing yields one empty page with no cursor; otherwise the
shared file loop runs, and if it yielded nothing at all a final empty
page with no cursor is emitted (the `yielded` flag). -/
def PubChemConnector.fetchPages {α : Type} (checkpoint : Option IngestionCheckpoint)
    (entries : List (String × List α)) (b : Nat) : List (IngestionPage α) :=
  match checkpoint with
  | some cp =>
    if cp.completed then []
    else
      let sf := cursorGetNat cp.cursor "file_index"
      let so := cursorGetNat cp.cursor "record_offset"
      if entries.length ≤ sf then [⟨[], none⟩]
      else
        let ps := fileSeqPages b entries.length sf (entries.drop sf) so
        if ps.isEmpty then [⟨[], none⟩] else ps
  | none =>
    if entries.length ≤ 0 then [⟨[], none⟩]
    else
      let ps := fileSeqPages b entries.length 0 entries 0
      if ps.isEmpty then [⟨[], none⟩] else ps

/-! ### ZincConnector.fetch_pages (zinc.py lines 237-300) -/

/-- A log entry for the `ingestion.zinc.offset_exceeds_file` warning
(zinc.py lines 272-280). -/
structure ZincWarning where
  entry_index : Nat
  file : String
  expected_offset : Nat
  available_records : Nat
deriving DecidableEq

/-- Inner record loop of `ZincConnector.fetch_pages` (zinc.py lines
256-270).  Returns the full pages yielded, the leftover batch and the
final `processed_lines` counter (which counts every record iterated,
skipped or emitted). -/
def zincEntryLoop {α : Type} (b i : Nat) (path : String) (off : Nat) :
    List α → Nat → List α → List (IngestionPage α) × List α × Nat
  | [], processed, batch => ([], batch, processed)
  | r :: rs, processed, batch =>
    if processed < off then zincEntryLoop b i path off rs (processed + 1) batch
    else
      let batch2 := batch ++ [r]
      let processed2 := processed + 1
      if b ≤ batch2.length then
        let c : Cursor :=
          [("entry_index", CVal.i i), ("line_offset", CVal.i processed2),
           ("file", CVal.s path)]
        let res := zincEntryLoop b i path off rs processed2 []
        (⟨batch2, some c⟩ :: res.1, res.2.1, res.2.2)
      else zincEntryLoop b i path off rs processed2 batch2

/-- Outer entry loop of `ZincConnector.fetch_pages` (zinc.py lines
251-297); returns pages and the offset warnings logged.  After a file,
when a nonzero resume offset exceeded the records iterated, the warning
is logged and the (dead) local offset is clamped; a leftover batch is
flushed with a cursor at the next entry (offset 0) or `None` for the
last entry; an entry that yielded no record lines at all emits an empty
page with the same next-entry cursor. -/
def zincEntriesLoop {α : Type} (b total : Nat) :
    Nat → List (String × List α) → Nat → List (IngestionPage α) × List ZincWarning
  | _i, [], _off => ([], [])
  | i, (path, recs) :: rest, off =>
    let res := zincEntryLoop b i path off recs 0 []
    let processed := res.2.2
    let warns : List ZincWarning :=
      if off ≠ 0 ∧ processed < off then [⟨i, path, off, processed⟩] else []
    let nextCursor : Option Cursor :=
      if i + 1 < total then
        some [("entry_index", CVal.i (i + 1)), ("line_offset", CVal.i 0)]
      else none
    let tail : List (IngestionPage α) :=
      if ¬ res.2.1.isEmpty then [⟨res.2.1, nextCursor⟩]
      else if processed = 0 then [⟨[], nextCursor⟩]
      else []
    let rec' := zincEntriesLoop b total (i + 1) rest 0
    (res.1 ++ tail ++ rec'.1, warns ++ rec'.2)

/-- Embeds `ZincConnector.fetch_pages` (zinc.py lines 237-300):
completed checkpoint short-circuits; otherwise the entry loop runs from
the checkpoint cursor (`entry_index`, `line_offset`); an empty resource
list yields exactly one empty page with no cursor. -/
def ZincConnector.fetchPages {α : Type} (checkpoint : Option IngestionCheckpoint)
    (resources : List (String × List α)) (b : Nat) :
    List (IngestionPage α) × List ZincWarning :=
  match checkpoint with
  | some cp =>
    if cp.completed then ([], [])
    else
      let se := cursorGetNat cp.cursor "entry_index"
      let so := cursorGetNat cp.cursor "line_offset"
      let res := zincEntriesLoop b resources.length se (resources.drop se) so
      (res.1 ++ (if resources.isEmpty then [⟨[], none⟩] else []), res.2)
  | none =>
    let res := zincEntriesLoop b resources.length 0 resources 0
    (res.1 ++ (if resources.isEmpty then [⟨[], none⟩] else []), res.2)

/-- Checkpoint cursor `{"file_index": i, "record_offset": k}` as stored
for the SDF file-sequence connectors. -/
def fileCursorCkpt (i k : Nat) : Cursor :=
  [("file_index", CVal.i i), ("record_offset", CVal.i k)]

/-- Checkpoint cursor `{"entry_index": i, "line_offset": k}` as stored
for the ZINC connector. -/
def zincCursorCkpt (i k : Nat) : Cursor :=
  [("entry_index", CVal.i i), ("line_offset", CVal.i k)]

/-! ### execute_request and its retry policy (src/src/ingestion/common.py lines 93-106)

    @retry(
        stop=stop_after_attempt(5),
        wait=wait_exponential(multiplier=0.5, min=0.5, max=5),
        retry=retry_if_exception_type(httpx.HTTPError),
    )
    def execute_request(client, request):
        response = client.send(request)
        try:
            response.raise_for_status()
        except httpx.HTTPStatusError as exc:
            raise HttpError(str(exc)) from exc
        return response

An attempt either fails at the transport level (`client.send` raises an
`httpx.TransportError`, a subclass of `httpx.HTTPError`, hence retried)
or produces a response with some status code.  `raise_for_status`
raises `httpx.HTTPStatusError` for every non-2xx status; the body
converts that to `HttpError`, a plain `RuntimeError` that is NOT an
`httpx.HTTPError`, so tenacity does not retry it.  After the 5th
retryable failure, tenacity (with the default `reraise=False`) raises
`RetryError`. -/

/-- Outcome of one attempt of the wrapped request body. -/
inductive AttemptOutcome where
  | transportError
  | response (status : Nat)
deriving DecidableEq

/-- Result of `execute_request` as observed by its caller. -/
inductive ExecResult where
  | ok (status : Nat)
  | httpError (status : Nat)
  | retryError
deriving DecidableEq

/-- One tenacity-wrapped run of the body: `rem` attempts still allowed,
`n` the number of the current attempt; `o` maps each attempt number to
its outcome.  Returns the result and the number of attempts made. -/
def executeRequestAux (o : Nat → AttemptOutcome) : Nat → Nat → ExecResult × Nat
  | 0, n => (.retryError, n)
  | rem + 1, n =>
    match o n with
    | .response s =>
      if 200 ≤ s ∧ s ≤ 299 then (.ok s, n) else (.httpError s, n)
    | .transportError =>
      if rem = 0 then (.retryError, n) else executeRequestAux o rem (n + 1)

/-- Embeds `execute_request` under `stop_after_attempt(5)`. -/
def execute_request (o : Nat → AttemptOutcome) : ExecResult × Nat :=
  executeRequestAux o 5 1

/-- Embeds tenacity `wait_exponential(multiplier=0.5, min=0.5, max=5)`:
the sleep inserted after failed attempt number `n` is
`max(max(0, min), min(multiplier * 2 ** (n - 1), max))`
(tenacity/wait.py, `wait_exponential.__call__`). -/
def tenacityWait (n : Nat) : ℚ :=
  max (max 0 (1 / 2)) (min ((1 / 2) * 2 ^ (n - 1)) 5)

/-! ### Checkpoint store (src/src/ingestion/common.py lines 46-75)

The file system is modelled as a map from paths to file contents; a
crash may stop `store` between any two primitive steps, and writing the
temporary file may itself stop after any prefix of the payload, while
`Path.replace` is a single atomic rename. -/

/-- Path-to-content map modelling the directory holding checkpoints. -/
def FSState := String → Option String

/-- Content observed at a path. -/
def fsGet (fs : FSState) (p : String) : Option String := fs p

/-- Writing (or overwriting) one path. -/
def fsSet (fs : FSState) (p : String) (v : String) : FSState :=
  fun q => if q = p then some v else fs q

/-- Removing one path. -/
def fsDel (fs : FSState) (p : String) : FSState :=
  fun q => if q = p then none else fs q

/-- Prefix of a payload that made it to disk before an interruption. -/
def strTake (s : String) (k : Nat) : String := ⟨s.data.take k⟩

/-- Embeds `_atomic_write_json` (common.py lines 46-52) as the list of
every file-system state an interrupted execution can leave behind:
nothing done yet; the temporary file `path + ".tmp"` holding any prefix
of the payload (a torn write of the temporary file); and the final
state after the atomic `tmp_path.replace(path)`, in which `path` holds
the full payload and the temporary file is gone. -/
def atomicWriteStates (fs : FSState) (p payload : String) : List FSState :=
  let tmp := p ++ ".tmp"
  fs ::
    ((List.range (payload.length + 1)).map fun k => fsSet fs tmp (strTake payload k))
    ++ [fsDel (fsSet (fsSet fs tmp payload) p payload) tmp]

/-- Checkpoint file path used by `CheckpointManager`:
`self._base_path / f"{source}.json"` (common.py lines 65, 74). -/
def checkpointPath (base source : String) : String :=
  base ++ "/" ++ source ++ ".json"

/-- Embeds `CheckpointManager.store` (common.py lines 71-75) as the set
of intermediate crash states of one invocation; `dump` stands for
`orjson.dumps(checkpoint.model_dump())`, the serialized document. -/
def CheckpointManager.storeStates (dump : IngestionCheckpoint → String)
    (fs : FSState) (base source : String) (cp : IngestionCheckpoint) : List FSState :=
  atomicWriteStates fs (checkpointPath base source) (dump cp)

/-- Result of `CheckpointManager.load` as observed by its caller:
absent file, parsed checkpoint, or a raised exception. -/
inductive LoadResult where
  | absent
  | loaded (cp : IngestionCheckpoint)
  | error
deriving DecidableEq

/-- Embeds `CheckpointManager.load` (common.py lines 62-69); `parse`
stands for `orjson.loads` followed by
`IngestionCheckpoint.model_validate`, returning `none` when either
raises on malformed content.  There is no handler around them, so a
parse failure propagates as an error; only a missing file maps to the
absent result. -/
def CheckpointManager.load (parse : String → Option IngestionCheckpoint)
    (fs : FSState) (base source : String) : LoadResult :=
  match fsGet fs (checkpointPath base source) with
  | none => .absent
  | some content =>
    match parse content with
    | some cp => .loaded cp
    | none => .error

/-! ### SDF decoder (src/src/open_molecule_data_pipeline/ingestion/sdf.py)

Lines of the decoded text stream are modelled as `List Char` (each line
already stripped of its trailing newline, as `_open_sdf` does). -/

/-- A text line. -/
abbrev Line := List Char

/-- Characters stripped by Python `str.strip()` with no argument. -/
def pyIsSpace (c : Char) : Bool :=
  c = ' ' ∨ c = '\t' ∨ c = '\n' ∨ c = '\r' ∨ c = '\x0b' ∨ c = '\x0c'

/-- Python `line.strip()`. -/
def pyStrip (l : Line) : Line :=
  ((l.dropWhile pyIsSpace).reverse.dropWhile pyIsSpace).reverse

/-- Python `line.rstrip("\r")`. -/
def pyRstripCR (l : Line) : Line :=
  (l.reverse.dropWhile (fun c => c = '\r')).reverse

/-- Python `line.find(c, start)`: index of the first occurrence of `c`
at or after `start`, or `none` (Python -1). -/
def pyFind (c : Char) (l : Line) (start : Nat) : Option Nat :=
  match (l.drop start).findIdx? (fun d => d = c) with
  | none => none
  | some j => some (start + j)

/-- Python `"\n".join(buffer)`. -/
def joinNl (ls : List Line) : Line := List.intercalate ['\n'] ls

/-- Python dict assignment `properties[tag] = value`: replaces the value
of an existing key in place, otherwise appends the pair. -/
def propsInsert (props : List (Line × Line)) (k v : Line) : List (Line × Line) :=
  if props.any (fun e => e.1 = k) then
    props.map (fun e => if e.1 = k then (k, v) else e)
  else props ++ [(k, v)]

/-- The flush step of `_parse_entry` (sdf.py lines 28-29 and 41-42):
`properties[current_tag] = "\n".join(buffer).strip()` when a tag is
open. -/
def flushProp (props : List (Line × Line)) (cur : Option Line) (buf : List Line) :
    List (Line × Line) :=
  match cur with
  | none => props
  | some tag => propsInsert props tag (pyStrip (joinNl buf))

/-- Tag extraction of `_parse_entry` (sdf.py lines 30-37):
`start = line.find("<"); end = line.find(">", start + 1)`; when both are
found the new tag is `line[start + 1 : end].strip()`, else no tag is
open.  When `find("<")` returns -1 Python still evaluates
`line.find(">", 0)`, but the `start != -1` conjunct rejects the line,
matching the `none` result here. -/
def parseTagLine (line : Line) : Option Line :=
  match pyFind '<' line 0 with
  | none => none
  | some s =>
    match pyFind '>' line (s + 1) with
    | none => none
    | some e => some (pyStrip ((line.drop (s + 1)).take (e - (s + 1))))

/-- The line loop of `_parse_entry` (sdf.py lines 26-39): state is the
open tag, its value buffer, and the properties collected so far. -/
def parseEntryAux : List Line → Option Line → List Line → List (Line × Line) →
    List (Line × Line)
  | [], cur, buf, props => flushProp props cur buf
  | line :: rest, cur, buf, props =>
    if line.head? = some '>' then
      let props2 := flushProp props cur buf
      match parseTagLine line with
      | some tag => parseEntryAux rest (some tag) [] props2
      | none => parseEntryAux rest none [] props2
    else if cur.isSome then
      parseEntryAux rest cur (buf ++ [pyRstripCR line]) props
    else parseEntryAux rest cur buf props

/-- Embeds `_parse_entry` (sdf.py lines 21-44). -/
def parse_entry (lines : List Line) : List (Line × Line) :=
  parseEntryAux lines none [] []

/-- The record sentinel line `$$$$`. -/
def sdfSentinel : Line := ['$', '$', '$', '$']

/-- The line loop of `iter_sdf_records` (sdf.py lines 50-60): collect
lines until one strips to `$$$$`, emit the collected record if any, and
emit a trailing record that lacks the sentinel. -/
def iterSdfAux : List Line → List Line → List (List (Line × Line))
  | [], acc => if acc.isEmpty then [] else [parse_entry acc]
  | line :: rest, acc =>
    if pyStrip line = sdfSentinel then
      if acc.isEmpty then iterSdfAux rest []
      else parse_entry acc :: iterSdfAux rest []
    else iterSdfAux rest (acc ++ [line])

/-- Embeds `iter_sdf_records` (sdf.py lines 47-60). -/
def iter_sdf_records (lines : List Line) : List (List (Line × Line)) :=
  iterSdfAux lines []

/-- A property block of an SDF record in canonical source form: the tag
line `>  <TAG>` followed by the value lines. -/
def mkTagLine (tag : Line) : Line :=
  '>' :: ' ' :: ' ' :: '<' :: tag ++ ['>']

/-- The lines of a record holding the given tagged value blocks. -/
def mkRecordLines (props : List (Line × List Line)) : List Line :=
  (props.map (fun e => mkTagLine e.1 :: e.2)).flatten

/-- Records listed one after the other, each terminated by the `$$$$`
sentinel line. -/
def mkSdfLines (blocks : List (List Line)) : List Line :=
  (blocks.map (fun bl => bl ++ [sdfSentinel])).flatten

/-! ## Claims -/

/-- C3: a file-sequence source with batch_size 2 whose single entry
holds records [R1, R2, R3] yields exactly two pages: [R1, R2] with a
cursor at offset 2 in the same file, then [R3] with no next cursor.
Shown for the ChEMBL and ZINC connectors cited by the claim. -/
theorem c3_batch_boundary {α : Type} (R1 R2 R3 : α) (fname : String) :
    ChEMBLConnector.fetchPages none [(fname, [R1, R2, R3])] 2 =
      [⟨[R1, R2], some [("file_index", CVal.i 0), ("file_name", CVal.s fname),
          ("record_offset", CVal.i 2)]⟩,
       ⟨[R3], none⟩]
    ∧ ZincConnector.fetchPages none [(fname, [R1, R2, R3])] 2 =
      ([⟨[R1, R2], some [("entry_index", CVal.i 0), ("line_offset", CVal.i 2),
          ("file", CVal.s fname)]⟩,
        ⟨[R3], none⟩], []) :=
  ⟨rfl, rfl⟩

/-- C7: a source with an empty entry list yields exactly one empty page
with no next cursor, and persisting that page from batch index 0 stores
the checkpoint `completed = true, batch_index = 0` (with the empty
cursor) without writing a batch file. -/
theorem c7_empty_source {α : Type} (b : Nat) :
    ChEMBLConnector.fetchPages (α := α) none [] b = [⟨[], none⟩]
    ∧ PubChemConnector.fetchPages (α := α) none [] b = [⟨[], none⟩]
    ∧ ZincConnector.fetchPages (α := α) none [] b = ([⟨[], none⟩], [])
    ∧ persistPage 0 (⟨[], none⟩ : IngestionPage α) = (⟨[], 0, true⟩, false) :=
  ⟨rfl, rfl, rfl, rfl⟩

/-- C5: whenever the loaded checkpoint is completed, every connector
variant produces no pages at all, independently of the source contents:
the file connectors return the empty page list for every entry list, and
the HTTP connector issues no request (its request log is empty) for
every response oracle. -/
theorem c5_completed_checkpoint_skips {α : Type} (cp : IngestionCheckpoint)
    (h : cp.completed = true) (entries : List (String × List α)) (b : Nat)
    (sc : Cursor) (responses : List (List α × Option Cursor)) :
    ChEMBLConnector.fetchPages (some cp) entries b = []
    ∧ PubChemConnector.fetchPages (some cp) entries b = []
    ∧ ZincConnector.fetchPages (some cp) entries b = ([], [])
    ∧ BaseHttpConnector.fetchPages (some cp) sc responses = ([], []) := by
  refine ⟨?_, ?_, ?_, ?_⟩ <;>
    simp [ChEMBLConnector.fetchPages, PubChemConnector.fetchPages,
      ZincConnector.fetchPages, BaseHttpConnector.fetchPages, h]

/-- Witness for C5 at a concrete completed checkpoint and nonempty
sources. -/
theorem c5_completed_checkpoint_skips_witness :
    ChEMBLConnector.fetchPages (α := Nat) (some ⟨[], 3, true⟩) [("f", [1, 2])] 2 = []
    ∧ PubChemConnector.fetchPages (α := Nat) (some ⟨[], 3, true⟩) [("f", [1, 2])] 2 = []
    ∧ ZincConnector.fetchPages (α := Nat) (some ⟨[], 3, true⟩) [("f", [1, 2])] 2 = ([], [])
    ∧ BaseHttpConnector.fetchPages (α := Nat) (some ⟨[], 3, true⟩) [] [([1], none)] = ([], []) :=
  c5_completed_checkpoint_skips ⟨[], 3, true⟩ rfl [("f", [1, 2])] 2 [] [([1], none)]

/-- C1: evaluation at the failing input.  With a first response whose
extracted next cursor is the empty map (and a second response
available), `BaseHttpConnector.fetch_pages` yields exactly one page and
issues exactly one request — `if not cursor_state` treats the empty map
like absence and breaks the loop, so no further page is requested —
while the orchestrator's `_persist_page` indeed leaves the checkpoint
uncompleted for that page because its completion test is
`page.next_cursor is None`, and the empty map is not `None`. -/
theorem c1_empty_cursor_stops_fetch_loop :
    BaseHttpConnector.fetchPages (α := Nat) none [] [([7], some []), ([8], none)]
      = ([⟨[7], some []⟩], [[]])
    ∧ (persistPage 0 (⟨[7], some []⟩ : IngestionPage Nat)).1 = ⟨[], 1, false⟩
    ∧ some ([] : Cursor) ≠ none :=
  ⟨rfl, rfl, by simp⟩

/-- C2 counterexample: the claim says 5xx/429-class responses are
retried, so with outcomes (500 then 200) or (429 then 200) a second
attempt would be made and succeed; the code instead converts the status
failure to `HttpError` (not an `httpx.HTTPError`) on the first attempt
and never retries it. -/
theorem c2_status_retry_counterexample :
    execute_request (fun k => if k = 1 then .response 500 else .response 200)
        = (.httpError 500, 1)
    ∧ execute_request (fun k => if k = 1 then .response 429 else .response 200)
        = (.httpError 429, 1)
    ∧ ((.httpError 500, 1) : ExecResult × Nat) ≠ (.ok 200, 2) :=
  ⟨rfl, rfl, by decide⟩

/-- After `k` leading transport errors, the attempt `n + k` response
settles the tenacity loop at once: a 2xx status is returned, any other
status raises `HttpError` on that very attempt, with no further retry. -/
lemma execAux_response (o : Nat → AttemptOutcome) (s : Nat) :
    ∀ (k rem n : Nat), k < rem →
      (∀ m, n ≤ m → m < n + k → o m = .transportError) →
      o (n + k) = .response s →
      executeRequestAux o rem n =
        ((if 200 ≤ s ∧ s ≤ 299 then ExecResult.ok s else ExecResult.httpError s), n + k) := by
  intro k
  induction k with
  | zero =>
    intro rem n hrem _ hresp
    obtain ⟨rem0, rfl⟩ : ∃ rem0, rem = rem0 + 1 := ⟨rem - 1, by omega⟩
    rw [Nat.add_zero] at hresp ⊢
    by_cases h2 : 200 ≤ s ∧ s ≤ 299 <;> simp [executeRequestAux, hresp, h2]
  | succ k ih =>
    intro rem n hrem htrans hresp
    obtain ⟨rem0, rfl⟩ : ∃ rem0, rem = rem0 + 1 := ⟨rem - 1, by omega⟩
    have h0 : o n = .transportError := htrans n le_rfl (by omega)
    have hrem0 : rem0 ≠ 0 := by omega
    have step : executeRequestAux o (rem0 + 1) n = executeRequestAux o rem0 (n + 1) := by
      simp [executeRequestAux, h0, hrem0]
    rw [step]
    have := ih rem0 (n + 1) (by omega)
      (fun m hm1 hm2 => htrans m (by omega) (by omega))
      (by have : n + 1 + k = n + (k + 1) := by omega
          rw [this]; exact hresp)
    rw [this]
    congr 1
    omega

/-- When every allowed attempt fails at the transport level, the loop
stops after exactly `rem` attempts with tenacity's `RetryError`. -/
lemma execAux_all_transport (o : Nat → AttemptOutcome) :
    ∀ (rem n : Nat), 1 ≤ rem →
      (∀ m, n ≤ m → m < n + rem → o m = .transportError) →
      executeRequestAux o rem n = (.retryError, n + rem - 1) := by
  intro rem
  induction rem with
  | zero => intro n h; omega
  | succ rem0 ih =>
    intro n _ htrans
    have h0 : o n = .transportError := htrans n le_rfl (by omega)
    by_cases hz : rem0 = 0
    · subst hz
      simp [executeRequestAux, h0]
    · have step : executeRequestAux o (rem0 + 1) n = executeRequestAux o rem0 (n + 1) := by
        simp [executeRequestAux, h0, hz]
      rw [step, ih (n + 1) (by omega) (fun m hm1 hm2 => htrans m (by omega) (by omega))]
      congr 1
      omega

/-- The loop never makes more attempts than it is allowed. -/
lemma execAux_attempts_le (o : Nat → AttemptOutcome) :
    ∀ (rem n : Nat), 1 ≤ rem → (executeRequestAux o rem n).2 ≤ n + rem - 1 := by
  intro rem
  induction rem with
  | zero => intro n h; omega
  | succ rem0 ih =>
    intro n _
    rcases hres : o n with _ | s
    · by_cases hz : rem0 = 0
      · subst hz; simp [executeRequestAux, hres]
      · have step : executeRequestAux o (rem0 + 1) n = executeRequestAux o rem0 (n + 1) := by
          simp [executeRequestAux, hres, hz]
        rw [step]
        have := ih (n + 1) (by omega)
        omega
    · have hval : (executeRequestAux o (rem0 + 1) n).2 = n := by
        by_cases h2 : 200 ≤ s ∧ s ≤ 299 <;> simp [executeRequestAux, hres, h2]
      omega

/-- C2 (amended): `execute_request` makes up to 5 attempts and retries
only transport-level connection errors; every HTTP response settles the
call on the attempt it arrives — a 2xx is returned and every other
status, the 5xx/429 classes included, surfaces immediately as the
distinct `HttpError` carrying the failure, never retried; exhausting
the 5 attempts on transport errors raises tenacity's `RetryError`; the
backoff waits start at 0.5s, double each retry, and are clamped to at
most 5s. -/
theorem c2_retry_policy :
    (∀ (o : Nat → AttemptOutcome) (n s : Nat), n < 5 →
        (∀ m, 1 ≤ m → m ≤ n → o m = .transportError) →
        o (n + 1) = .response s →
        execute_request o =
          ((if 200 ≤ s ∧ s ≤ 299 then ExecResult.ok s else ExecResult.httpError s), n + 1))
    ∧ (∀ (o : Nat → AttemptOutcome),
        (∀ m, 1 ≤ m → m ≤ 5 → o m = .transportError) →
        execute_request o = (.retryError, 5))
    ∧ (∀ (o : Nat → AttemptOutcome), (execute_request o).2 ≤ 5)
    ∧ tenacityWait 1 = 1 / 2
    ∧ (∀ n, 1 ≤ n → n ≤ 3 → tenacityWait (n + 1) = 2 * tenacityWait n)
    ∧ (∀ n, 1 / 2 ≤ tenacityWait n ∧ tenacityWait n ≤ 5) := by
  refine ⟨?_, ?_, ?_, ?_, ?_, ?_⟩
  · intro o n s hn htrans hresp
    have := execAux_response o s n 5 1 (by omega)
      (fun m hm1 hm2 => htrans m hm1 (by omega))
      (by have : 1 + n = n + 1 := by omega
          rw [this]; exact hresp)
    rw [execute_request, this]
    congr 1
    omega
  · intro o htrans
    have := execAux_all_transport o 5 1 (by omega)
      (fun m hm1 hm2 => htrans m hm1 (by omega))
    rw [execute_request, this]
  · intro o
    have := execAux_attempts_le o 5 1 (by omega)
    rw [execute_request]
    omega
  · norm_num [tenacityWait]
  · intro n h1 h3
    interval_cases n <;> norm_num [tenacityWait]
  · intro n
    constructor
    · calc (1 / 2 : ℚ) ≤ max 0 (1 / 2) := le_max_right 0 (1 / 2)
        _ ≤ tenacityWait n := le_max_left _ _
    · refine max_le (by norm_num) (min_le_right _ _)

/-- Witness for C2 (amended): two transport errors then a 200 give the
success after exactly 3 attempts; five transport errors exhaust into
`RetryError` after 5 attempts; the second wait doubles the first. -/
theorem c2_retry_policy_witness :
    execute_request (fun m => if m ≤ 2 then .transportError else .response 200) = (.ok 200, 3)
    ∧ execute_request (fun _ => .transportError) = (.retryError, 5)
    ∧ tenacityWait 2 = 2 * tenacityWait 1 := by
  refine ⟨?_, ?_, ?_⟩
  · have h := c2_retry_policy.1 (fun m => if m ≤ 2 then .transportError else .response 200)
      2 200 (by omega) (fun m hm1 hm2 => by simp [hm2]) (by norm_num)
    simpa using h
  · exact c2_retry_policy.2.1 (fun _ => .transportError) (fun m hm1 hm2 => rfl)
  · exact c2_retry_policy.2.2.2.2.1 1 (by omega) (by omega)

/-- C6: at every state an interrupted `CheckpointManager.store` can
leave behind — nothing written, any torn prefix of the temporary file,
or the state after the atomic rename — a reader of the checkpoint path
observes either exactly the prior content of that path (including its
absence) or exactly the complete new serialized checkpoint, never a
truncated or mixed document: all partial writes land at the distinct
temporary path and only the atomic rename changes the checkpoint path. -/
theorem c6_atomic_store (dump : IngestionCheckpoint → String) (fs : FSState)
    (base source : String) (cp : IngestionCheckpoint) (s : FSState)
    (hs : s ∈ CheckpointManager.storeStates dump fs base source cp) :
    fsGet s (checkpointPath base source) = fsGet fs (checkpointPath base source)
    ∨ fsGet s (checkpointPath base source) = some (dump cp) := by
  have hneq : ¬ checkpointPath base source = checkpointPath base source ++ ".tmp" := by
    intro h
    have hlen := congrArg String.length h
    rw [String.length_append] at hlen
    have h4 : ".tmp".length = 4 := rfl
    omega
  simp only [CheckpointManager.storeStates, atomicWriteStates, List.mem_cons,
    List.mem_append, List.mem_map, List.mem_singleton, List.mem_range,
    List.not_mem_nil, or_false] at hs
  rcases hs with (rfl | ⟨k, _, rfl⟩) | rfl
  · exact Or.inl rfl
  · left
    simp [fsGet, fsSet, hneq]
  · right
    simp [fsGet, fsDel, fsSet, hneq]

/-- Witness for C6 at the post-rename state of a concrete store. -/
theorem c6_atomic_store_witness :
    fsGet (fsDel (fsSet (fsSet (fun _ => none) (checkpointPath "demo" "src" ++ ".tmp") "x")
          (checkpointPath "demo" "src") "x") (checkpointPath "demo" "src" ++ ".tmp"))
        (checkpointPath "demo" "src")
      = fsGet (fun _ => none) (checkpointPath "demo" "src")
    ∨ fsGet (fsDel (fsSet (fsSet (fun _ => none) (checkpointPath "demo" "src" ++ ".tmp") "x")
          (checkpointPath "demo" "src") "x") (checkpointPath "demo" "src" ++ ".tmp"))
        (checkpointPath "demo" "src")
      = some "x" :=
  c6_atomic_store (fun _ => "x") (fun _ => none) "demo" "src" ⟨[], 0, false⟩ _
    (by simp [CheckpointManager.storeStates, atomicWriteStates])

/-- C8: when the checkpoint file for a source exists but its content
does not parse, `CheckpointManager.load` surfaces the error — it never
reports the checkpoint as absent and never returns a parsed checkpoint,
so no silent fall-back to the source start state is possible. -/
theorem c8_malformed_checkpoint_error (parse : String → Option IngestionCheckpoint)
    (fs : FSState) (base source content : String)
    (hexists : fsGet fs (checkpointPath base source) = some content)
    (hbad : parse content = none) :
    CheckpointManager.load parse fs base source = .error
    ∧ CheckpointManager.load parse fs base source ≠ .absent
    ∧ ∀ cp, CheckpointManager.load parse fs base source ≠ .loaded cp := by
  have h : CheckpointManager.load parse fs base source = .error := by
    simp [CheckpointManager.load, hexists, hbad]
  exact ⟨h, by simp [h], fun cp => by simp [h]⟩

/-- Witness for C8 at a concrete file system holding unparsable
checkpoint content. -/
theorem c8_malformed_checkpoint_error_witness :
    CheckpointManager.load (fun _ => none)
        (fun q => if q = checkpointPath "c" "s" then some "oops" else none) "c" "s"
      = .error :=
  (c8_malformed_checkpoint_error (fun _ => none)
      (fun q => if q = checkpointPath "c" "s" then some "oops" else none)
      "c" "s" "oops" (by simp [fsGet]) rfl).1

@[simp]
lemma pagesRecords_nil {α : Type} : pagesRecords ([] : List (IngestionPage α)) = [] := rfl

@[simp]
lemma pagesRecords_cons {α : Type} (p : IngestionPage α) (ps : List (IngestionPage α)) :
    pagesRecords (p :: ps) = p.records ++ pagesRecords ps := by
  simp [pagesRecords]

@[simp]
lemma pagesRecords_append {α : Type} (ps qs : List (IngestionPage α)) :
    pagesRecords (ps ++ qs) = pagesRecords ps ++ pagesRecords qs := by
  simp [pagesRecords]

/-- Records conservation for the shared inner file loop: the records in
the yielded pages followed by the leftover batch are exactly the
incoming batch followed by every record from the skip offset on. -/
lemma fileSeqFileLoop_records {α : Type} (b fi : Nat) (fname : String) (off : Nat) :
    ∀ (recs : List α) (processed : Nat) (batch : List α),
      pagesRecords (fileSeqFileLoop b fi fname off recs processed batch).1
          ++ (fileSeqFileLoop b fi fname off recs processed batch).2
        = batch ++ recs.drop (off - processed) := by
  intro recs
  induction recs with
  | nil => intro processed batch; simp [fileSeqFileLoop]
  | cons r rs ih =>
    intro processed batch
    by_cases hskip : processed < off
    · have heq : fileSeqFileLoop b fi fname off (r :: rs) processed batch
          = fileSeqFileLoop b fi fname off rs (processed + 1) batch := by
        simp [fileSeqFileLoop, hskip]
      rw [heq, ih]
      have hoff : off - processed = (off - (processed + 1)) + 1 := by omega
      rw [hoff, List.drop_succ_cons]
    · have hoff0 : off - processed = 0 := by omega
      have hoff1 : off - (processed + 1) = 0 := by omega
      by_cases hfull : b ≤ (batch ++ [r]).length
      · have hfull2 : b ≤ batch.length + 1 := by simpa using hfull
        have heq : fileSeqFileLoop b fi fname off (r :: rs) processed batch
            = (⟨batch ++ [r],
                some [("file_index", CVal.i fi), ("file_name", CVal.s fname),
                      ("record_offset", CVal.i (processed + 1))]⟩
                :: (fileSeqFileLoop b fi fname off rs (processed + 1) []).1,
               (fileSeqFileLoop b fi fname off rs (processed + 1) []).2) := by
          simp [fileSeqFileLoop, hskip, hfull2]
        rw [heq]
        rw [pagesRecords_cons, List.append_assoc, ih (processed + 1) []]
        simp [hoff0, hoff1]
      · have hfull2 : ¬ b ≤ batch.length + 1 := by simpa using hfull
        have heq : fileSeqFileLoop b fi fname off (r :: rs) processed batch
            = fileSeqFileLoop b fi fname off rs (processed + 1) (batch ++ [r]) := by
          simp [fileSeqFileLoop, hskip, hfull2]
        rw [heq, ih]
        simp [hoff0, hoff1]

/-- Records remaining in an entry-list suffix when the first entry is
resumed at the given offset. -/
def entsRecordsFrom {α : Type} (off : Nat) : List (String × List α) → List α
  | [] => []
  | (_, recs) :: rest => recs.drop off ++ (rest.map (fun e => e.2)).flatten

lemma entsRecordsFrom_zero {α : Type} (ents : List (String × List α)) :
    entsRecordsFrom 0 ents = (ents.map (fun e => e.2)).flatten := by
  cases ents with
  | nil => rfl
  | cons e rest => obtain ⟨fname, recs⟩ := e; simp [entsRecordsFrom]

/-- Records conservation for the shared outer file loop. -/
lemma fileSeqPages_records {α : Type} (b total : Nat) :
    ∀ (ents : List (String × List α)) (fi off : Nat),
      pagesRecords (fileSeqPages b total fi ents off) = entsRecordsFrom off ents := by
  intro ents
  induction ents with
  | nil => intro fi off; rfl
  | cons e rest ih =>
    intro fi off
    obtain ⟨fname, recs⟩ := e
    have key : pagesRecords (fileSeqPages b total fi ((fname, recs) :: rest) off)
        = (pagesRecords (fileSeqFileLoop b fi fname off recs 0 []).1
            ++ (fileSeqFileLoop b fi fname off recs 0 []).2)
          ++ pagesRecords (fileSeqPages b total (fi + 1) rest 0) := by
      by_cases hb : (fileSeqFileLoop b fi fname off recs 0 []).2.isEmpty
      · have hnil : (fileSeqFileLoop b fi fname off recs 0 []).2 = [] :=
          List.isEmpty_iff.mp hb
        simp [fileSeqPages, hb, hnil]
      · simp [fileSeqPages, hb, List.append_assoc]
    rw [key, fileSeqFileLoop_records, ih, entsRecordsFrom_zero]
    simp [entsRecordsFrom]

/-- C4: a file-sequence connector resumed from checkpoint cursor
`{file_index = i, record_offset = k}`, where the file at index `i`
holds at least `k` records, emits exactly the records of that file from
position `k` on, followed by every record of every later file: no
record before position `k` is re-emitted and none at or after it is
skipped.  Shown for the ChEMBL and PubChem connectors cited by the
claim, with `i` the length of the prefix of earlier entries. -/
theorem c4_exact_offset_resume {α : Type} (pre post : List (String × List α))
    (fname : String) (recs : List α) (k b n : Nat) (_hk : k ≤ recs.length) :
    pagesRecords (ChEMBLConnector.fetchPages
        (some ⟨fileCursorCkpt pre.length k, n, false⟩)
        (pre ++ (fname, recs) :: post) b)
      = recs.drop k ++ (post.map (fun e => e.2)).flatten
    ∧ pagesRecords (PubChemConnector.fetchPages
        (some ⟨fileCursorCkpt pre.length k, n, false⟩)
        (pre ++ (fname, recs) :: post) b)
      = recs.drop k ++ (post.map (fun e => e.2)).flatten := by
  have hgi : cursorGetNat (fileCursorCkpt pre.length k) "file_index" = pre.length := rfl
  have hgk : cursorGetNat (fileCursorCkpt pre.length k) "record_offset" = k := rfl
  have hdrop : (pre ++ (fname, recs) :: post).drop pre.length = (fname, recs) :: post :=
    List.drop_left pre ((fname, recs) :: post)
  have hlen : (pre ++ (fname, recs) :: post).length = pre.length + post.length + 1 := by
    simp [List.length_append]
    omega
  constructor
  · show pagesRecords
        (fileSeqPages b (pre ++ (fname, recs) :: post).length
            (cursorGetNat (fileCursorCkpt pre.length k) "file_index")
            ((pre ++ (fname, recs) :: post).drop
              (cursorGetNat (fileCursorCkpt pre.length k) "file_index"))
            (cursorGetNat (fileCursorCkpt pre.length k) "record_offset")
          ++ _) = _
    rw [hgi, hgk, hdrop]
    have hne : (pre ++ (fname, recs) :: post).isEmpty = false := by
      simp
    rw [hne]
    simp only [Bool.false_eq_true, if_false, List.append_nil]
    rw [fileSeqPages_records]
    rfl
  · show pagesRecords
        (if (pre ++ (fname, recs) :: post).length
              ≤ cursorGetNat (fileCursorCkpt pre.length k) "file_index" then _ else _) = _
    rw [hgi, hgk]
    rw [if_neg (by omega)]
    by_cases hemp :
        (fileSeqPages b (pre ++ (fname, recs) :: post).length pre.length
          ((pre ++ (fname, recs) :: post).drop pre.length) k).isEmpty
    · have hnil := List.isEmpty_iff.mp hemp
      rw [if_pos hemp]
      have h2 : entsRecordsFrom k ((fname, recs) :: post) = ([] : List α) := by
        rw [← fileSeqPages_records b (pre ++ (fname, recs) :: post).length
            ((fname, recs) :: post) pre.length k, ← hdrop]
        rw [hdrop] at hnil ⊢
        rw [hnil]
        simp [pagesRecords]
      have h3 : recs.drop k ++ (post.map (fun e => e.2)).flatten = ([] : List α) := h2
      rw [h3]
      simp [pagesRecords]
    · rw [if_neg hemp, hdrop, fileSeqPages_records]
      rfl

/-- Witness for C4: resuming the three-record file at offset 1 emits
records 2 and 3 only. -/
theorem c4_exact_offset_resume_witness :
    pagesRecords (ChEMBLConnector.fetchPages (α := Nat)
        (some ⟨fileCursorCkpt 0 1, 5, false⟩) [("f", [10, 20, 30])] 2) = [20, 30]
    ∧ pagesRecords (PubChemConnector.fetchPages (α := Nat)
        (some ⟨fileCursorCkpt 0 1, 5, false⟩) [("f", [10, 20, 30])] 2) = [20, 30] := by
  have h := c4_exact_offset_resume (α := Nat) [] [] "f" [10, 20, 30] 1 2 5 (by decide)
  exact ⟨h.1.trans (by decide), h.2.trans (by decide)⟩

/-- The `processed_lines` counter of the ZINC inner loop counts every
record iterated, skipped or emitted. -/
lemma zincEntryLoop_processed {α : Type} (b i : Nat) (path : String) (off : Nat) :
    ∀ (recs : List α) (processed : Nat) (batch : List α),
      (zincEntryLoop b i path off recs processed batch).2.2 = processed + recs.length := by
  intro recs
  induction recs with
  | nil => intro processed batch; simp [zincEntryLoop]
  | cons r rs ih =>
    intro processed batch
    by_cases hskip : processed < off
    · have heq : zincEntryLoop b i path off (r :: rs) processed batch
          = zincEntryLoop b i path off rs (processed + 1) batch := by
        simp [zincEntryLoop, hskip]
      rw [heq, ih]
      simp only [List.length_cons]
      omega
    · by_cases hfull : b ≤ batch.length + 1
      · have heq : zincEntryLoop b i path off (r :: rs) processed batch
            = (⟨batch ++ [r],
                some [("entry_index", CVal.i i), ("line_offset", CVal.i (processed + 1)),
                      ("file", CVal.s path)]⟩
                :: (zincEntryLoop b i path off rs (processed + 1) []).1,
               (zincEntryLoop b i path off rs (processed + 1) []).2.1,
               (zincEntryLoop b i path off rs (processed + 1) []).2.2) := by
          simp [zincEntryLoop, hskip, hfull]
        rw [heq]
        show (zincEntryLoop b i path off rs (processed + 1) []).2.2 = _
        rw [ih]
        simp only [List.length_cons]
        omega
      · have heq : zincEntryLoop b i path off (r :: rs) processed batch
            = zincEntryLoop b i path off rs (processed + 1) (batch ++ [r]) := by
          simp [zincEntryLoop, hskip, hfull]
        rw [heq, ih]
        simp only [List.length_cons]
        omega

/-- Records conservation for the ZINC inner loop. -/
lemma zincEntryLoop_records {α : Type} (b i : Nat) (path : String) (off : Nat) :
    ∀ (recs : List α) (processed : Nat) (batch : List α),
      pagesRecords (zincEntryLoop b i path off recs processed batch).1
          ++ (zincEntryLoop b i path off recs processed batch).2.1
        = batch ++ recs.drop (off - processed) := by
  intro recs
  induction recs with
  | nil => intro processed batch; simp [zincEntryLoop]
  | cons r rs ih =>
    intro processed batch
    by_cases hskip : processed < off
    · have heq : zincEntryLoop b i path off (r :: rs) processed batch
          = zincEntryLoop b i path off rs (processed + 1) batch := by
        simp [zincEntryLoop, hskip]
      rw [heq, ih]
      have hoff : off - processed = (off - (processed + 1)) + 1 := by omega
      rw [hoff, List.drop_succ_cons]
    · have hoff0 : off - processed = 0 := by omega
      have hoff1 : off - (processed + 1) = 0 := by omega
      by_cases hfull : b ≤ batch.length + 1
      · have heq : zincEntryLoop b i path off (r :: rs) processed batch
            = (⟨batch ++ [r],
                some [("entry_index", CVal.i i), ("line_offset", CVal.i (processed + 1)),
                      ("file", CVal.s path)]⟩
                :: (zincEntryLoop b i path off rs (processed + 1) []).1,
               (zincEntryLoop b i path off rs (processed + 1) []).2.1,
               (zincEntryLoop b i path off rs (processed + 1) []).2.2) := by
          simp [zincEntryLoop, hskip, hfull]
        rw [heq]
        rw [pagesRecords_cons, List.append_assoc]
        have := ih (processed + 1) []
        rw [show pagesRecords (zincEntryLoop b i path off rs (processed + 1) []).1
              ++ ((⟨batch ++ [r], _⟩ : IngestionPage α)
                :: (zincEntryLoop b i path off rs (processed + 1) []).1,
               (zincEntryLoop b i path off rs (processed + 1) []).2.1,
               (zincEntryLoop b i path off rs (processed + 1) []).2.2).2.1
            = pagesRecords (zincEntryLoop b i path off rs (processed + 1) []).1
              ++ (zincEntryLoop b i path off rs (processed + 1) []).2.1 from rfl]
        rw [this]
        simp [hoff0, hoff1]
      · have heq : zincEntryLoop b i path off (r :: rs) processed batch
            = zincEntryLoop b i path off rs (processed + 1) (batch ++ [r]) := by
          simp [zincEntryLoop, hskip, hfull]
        rw [heq, ih]
        simp [hoff0, hoff1]

/-- Records conservation for the ZINC outer loop: the extra empty page
emitted for entries that produced no record lines carries no records,
so the emitted records are the suffix records from the resume offset. -/
lemma zincEntriesLoop_records {α : Type} (b total : Nat) :
    ∀ (ents : List (String × List α)) (i off : Nat),
      pagesRecords (zincEntriesLoop b total i ents off).1 = entsRecordsFrom off ents := by
  intro ents
  induction ents with
  | nil => intro i off; rfl
  | cons e rest ih =>
    intro i off
    obtain ⟨path, recs⟩ := e
    have key : pagesRecords (zincEntriesLoop b total i ((path, recs) :: rest) off).1
        = (pagesRecords (zincEntryLoop b i path off recs 0 []).1
            ++ (zincEntryLoop b i path off recs 0 []).2.1)
          ++ pagesRecords (zincEntriesLoop b total (i + 1) rest 0).1 := by
      by_cases hb : (zincEntryLoop b i path off recs 0 []).2.1.isEmpty
      · have hnil : (zincEntryLoop b i path off recs 0 []).2.1 = [] :=
          List.isEmpty_iff.mp hb
        by_cases hz : (zincEntryLoop b i path off recs 0 []).2.2 = 0
        · simp [zincEntriesLoop, hb, hnil, hz]
        · simp [zincEntriesLoop, hb, hnil, hz]
      · simp [zincEntriesLoop, hb, List.append_assoc]
    rw [key, zincEntryLoop_records, ih, entsRecordsFrom_zero]
    simp [entsRecordsFrom]

/-- The ZINC outer loop logs no offset warning when it starts every
entry at offset 0. -/
lemma zincEntriesLoop_warns_zero {α : Type} (b total : Nat) :
    ∀ (ents : List (String × List α)) (i : Nat),
      (zincEntriesLoop b total i ents 0).2 = [] := by
  intro ents
  induction ents with
  | nil => intro i; rfl
  | cons e rest ih =>
    intro i
    obtain ⟨path, recs⟩ := e
    simp [zincEntriesLoop, ih]

/-- C10: when the ZINC connector resumes from a checkpoint whose
`line_offset` k exceeds the record count of the entry at `entry_index`,
it emits no record from that entry, logs exactly one
`offset_exceeds_file` warning carrying the expected offset and the
available count (the value the dead local clamp assigns), and continues
with the following entries from offset 0, emitting all of their
records; the run completes normally rather than raising. -/
theorem c10_zinc_offset_clamp {α : Type} (pre post : List (String × List α))
    (fname : String) (recs : List α) (k b n : Nat) (hk : recs.length < k) :
    (ZincConnector.fetchPages (some ⟨zincCursorCkpt pre.length k, n, false⟩)
        (pre ++ (fname, recs) :: post) b).2
      = [⟨pre.length, fname, k, recs.length⟩]
    ∧ pagesRecords (ZincConnector.fetchPages
        (some ⟨zincCursorCkpt pre.length k, n, false⟩)
        (pre ++ (fname, recs) :: post) b).1
      = (post.map (fun e => e.2)).flatten := by
  have hgi : cursorGetNat (zincCursorCkpt pre.length k) "entry_index" = pre.length := rfl
  have hgk : cursorGetNat (zincCursorCkpt pre.length k) "line_offset" = k := rfl
  have hdrop : (pre ++ (fname, recs) :: post).drop pre.length = (fname, recs) :: post :=
    List.drop_left pre ((fname, recs) :: post)
  have hproc : (zincEntryLoop b pre.length fname k recs 0 []).2.2 = recs.length := by
    rw [zincEntryLoop_processed]
    omega
  have hne : (pre ++ (fname, recs) :: post).isEmpty = false := by simp
  constructor
  · show (zincEntriesLoop b (pre ++ (fname, recs) :: post).length
        (cursorGetNat (zincCursorCkpt pre.length k) "entry_index")
        ((pre ++ (fname, recs) :: post).drop
          (cursorGetNat (zincCursorCkpt pre.length k) "entry_index"))
        (cursorGetNat (zincCursorCkpt pre.length k) "line_offset")).2 = _
    rw [hgi, hgk, hdrop]
    have hcond : k ≠ 0 ∧ (zincEntryLoop b pre.length fname k recs 0 []).2.2 < k := by
      rw [hproc]
      omega
    simp only [zincEntriesLoop, hproc, zincEntriesLoop_warns_zero, List.append_nil]
    rw [if_pos (show k ≠ 0 ∧ recs.length < k from by omega)]
  · show pagesRecords ((zincEntriesLoop b (pre ++ (fname, recs) :: post).length
        (cursorGetNat (zincCursorCkpt pre.length k) "entry_index")
        ((pre ++ (fname, recs) :: post).drop
          (cursorGetNat (zincCursorCkpt pre.length k) "entry_index"))
        (cursorGetNat (zincCursorCkpt pre.length k) "line_offset")).1
        ++ (if (pre ++ (fname, recs) :: post).isEmpty then [⟨[], none⟩] else [])) = _
    rw [hgi, hgk, hdrop, hne]
    simp only [Bool.false_eq_true, if_false, List.append_nil]
    rw [zincEntriesLoop_records]
    show recs.drop k ++ (post.map (fun e => e.2)).flatten = _
    rw [List.drop_eq_nil_of_le (by omega)]
    rfl

/-- Witness for C10: offset 5 against a two-record entry emits only the
later entry's records and logs the clamp warning. -/
theorem c10_zinc_offset_clamp_witness :
    (ZincConnector.fetchPages (α := Nat) (some ⟨zincCursorCkpt 0 5, 1, false⟩)
        [("f0", [1, 2]), ("f1", [3])] 2).2
      = [⟨0, "f0", 5, 2⟩]
    ∧ pagesRecords (ZincConnector.fetchPages (α := Nat)
        (some ⟨zincCursorCkpt 0 5, 1, false⟩) [("f0", [1, 2]), ("f1", [3])] 2).1
      = [3] := by
  have h := c10_zinc_offset_clamp (α := Nat) [] [("f1", [3])] "f0" [1, 2] 5 2 1 (by decide)
  exact ⟨h.1, h.2.trans (by decide)⟩

/-- Lines that do not strip to the sentinel are buffered unchanged by
the `iter_sdf_records` loop. -/
lemma iterSdfAux_accum :
    ∀ (block rest acc : List Line), (∀ l ∈ block, pyStrip l ≠ sdfSentinel) →
      iterSdfAux (block ++ rest) acc = iterSdfAux rest (acc ++ block) := by
  intro block
  induction block with
  | nil => intro rest acc _; simp
  | cons l ls ih =>
    intro rest acc h
    have hl : pyStrip l ≠ sdfSentinel := h l (by simp)
    have step : iterSdfAux ((l :: ls) ++ rest) acc = iterSdfAux (ls ++ rest) (acc ++ [l]) := by
      simp [iterSdfAux, hl]
    rw [step, ih rest (acc ++ [l]) (fun x hx => h x (by simp [hx]))]
    rw [show (acc ++ [l]) ++ ls = acc ++ l :: ls by simp]

/-- A sentinel line flushes a nonempty buffered record. -/
lemma iterSdfAux_sentinel (sline : Line) (hs : pyStrip sline = sdfSentinel)
    (rest : List Line) (acc : List Line) (hacc : acc ≠ []) :
    iterSdfAux (sline :: rest) acc = parse_entry acc :: iterSdfAux rest [] := by
  cases acc with
  | nil => exact absurd rfl hacc
  | cons a as => simp [iterSdfAux, hs]

/-- The strip of the sentinel line is itself. -/
lemma pyStrip_sentinel : pyStrip sdfSentinel = sdfSentinel := by decide

lemma iterSdf_blocks :
    ∀ (blocks : List (List Line)),
      (∀ bl ∈ blocks, bl ≠ [] ∧ ∀ l ∈ bl, pyStrip l ≠ sdfSentinel) →
      iterSdfAux (mkSdfLines blocks) [] = blocks.map parse_entry := by
  intro blocks
  induction blocks with
  | nil => intro _; rfl
  | cons bl rest ih =>
    intro h
    obtain ⟨hne, hns⟩ := h bl (by simp)
    have hsplit : mkSdfLines (bl :: rest) = bl ++ (sdfSentinel :: mkSdfLines rest) := by
      simp [mkSdfLines]
    rw [hsplit, iterSdfAux_accum bl _ [] hns]
    rw [show ([] : List Line) ++ bl = bl from by simp]
    rw [iterSdfAux_sentinel sdfSentinel pyStrip_sentinel _ bl hne,
      ih (fun x hx => h x (by simp [hx]))]
    rfl

lemma iterSdf_blocks_tail :
    ∀ (blocks : List (List Line)) (lastBlock : List Line),
      (∀ bl ∈ blocks, bl ≠ [] ∧ ∀ l ∈ bl, pyStrip l ≠ sdfSentinel) →
      lastBlock ≠ [] → (∀ l ∈ lastBlock, pyStrip l ≠ sdfSentinel) →
      iterSdfAux (mkSdfLines blocks ++ lastBlock) []
        = blocks.map parse_entry ++ [parse_entry lastBlock] := by
  intro blocks
  induction blocks with
  | nil =>
    intro lastBlock _ hne hns
    rw [show mkSdfLines [] ++ lastBlock = lastBlock ++ [] from by simp [mkSdfLines]]
    rw [iterSdfAux_accum lastBlock [] [] hns]
    cases lastBlock with
    | nil => exact absurd rfl hne
    | cons a as => simp [iterSdfAux]
  | cons bl rest ih =>
    intro lastBlock h hne hns
    obtain ⟨hbne, hbns⟩ := h bl (by simp)
    have hsplit : mkSdfLines (bl :: rest) ++ lastBlock
        = bl ++ (sdfSentinel :: (mkSdfLines rest ++ lastBlock)) := by
      simp [mkSdfLines]
    rw [hsplit, iterSdfAux_accum bl _ [] hbns]
    rw [show ([] : List Line) ++ bl = bl from by simp]
    rw [iterSdfAux_sentinel sdfSentinel pyStrip_sentinel _ bl hbne,
      ih lastBlock (fun x hx => h x (by simp [hx])) hne hns]
    rfl

/-- Value lines are appended to the open buffer after `rstrip("\r")`. -/
lemma parseEntryAux_values :
    ∀ (vs more : List Line) (t : Line) (buf : List Line) (props : List (Line × Line)),
      (∀ l ∈ vs, l.head? ≠ some '>') →
      parseEntryAux (vs ++ more) (some t) buf props
        = parseEntryAux more (some t) (buf ++ vs.map pyRstripCR) props := by
  intro vs
  induction vs with
  | nil => intro more t buf props _; simp
  | cons v vrest ih =>
    intro more t buf props h
    have hv : v.head? ≠ some '>' := h v (by simp)
    have step : parseEntryAux ((v :: vrest) ++ more) (some t) buf props
        = parseEntryAux (vrest ++ more) (some t) (buf ++ [pyRstripCR v]) props := by
      simp [parseEntryAux, hv]
    rw [step, ih _ _ _ _ (fun x hx => h x (by simp [hx]))]
    rw [show (buf ++ [pyRstripCR v]) ++ vrest.map pyRstripCR
        = buf ++ (v :: vrest).map pyRstripCR from by simp]

lemma findIdx_gt_append (t : Line) (hgt : '>' ∉ t) :
    (t ++ ['>']).findIdx? (fun d => d = '>') = some t.length := by
  induction t with
  | nil => simp [List.findIdx?_cons]
  | cons c cs ih =>
    have hc : ¬ c = '>' := fun h => hgt (by simp [h])
    have ihs := ih (fun h => hgt (List.mem_cons_of_mem c h))
    simp [List.findIdx?_cons, hc, ihs]

/-- Parsing the canonical tag line recovers the stripped tag: the first
angle bracket opens at index 3 and, since the tag has no closing
bracket, the closing one is the final character. -/
lemma parseTagLine_mk (t : Line) (hgt : '>' ∉ t) :
    parseTagLine (mkTagLine t) = some (pyStrip t) := by
  have hfind1 : pyFind '<' (mkTagLine t) 0 = some 3 := by
    have : (mkTagLine t).findIdx? (fun d => d = '<')
        = ((('>' : Char) :: ' ' :: ' ' :: '<' :: (t ++ ['>'])).findIdx? (fun d => d = '<')) := rfl
    simp [pyFind, mkTagLine, List.findIdx?_cons]
  have hdrop4 : (mkTagLine t).drop 4 = t ++ ['>'] := rfl
  have hfind2 : pyFind '>' (mkTagLine t) 4 = some (4 + t.length) := by
    rw [pyFind, hdrop4, findIdx_gt_append t hgt]
  simp [parseTagLine, hfind1, hfind2, Nat.add_sub_cancel_left, hdrop4, List.take_left]

/-- Inserting a key absent from the collected properties appends it. -/
lemma propsInsert_fresh (acc : List (Line × Line)) (k v : Line)
    (h : k ∉ acc.map (fun e => e.1)) :
    propsInsert acc k v = acc ++ [(k, v)] := by
  rw [propsInsert, if_neg]
  intro hc
  rw [List.any_eq_true] at hc
  obtain ⟨e, he, hek⟩ := hc
  exact h (List.mem_map.mpr ⟨e, he, by simpa using hek⟩)

/-- The value recorded for a property block: the buffered lines are the
`rstrip("\r")` of the raw lines, joined with newlines and stripped. -/
def propVal (vs : List Line) : Line := pyStrip (joinNl (vs.map pyRstripCR))

/-- The `_parse_entry` state machine maps each well-formed tagged block
to its tag/value pair, appending in order when all tags are fresh. -/
lemma parseEntryAux_props :
    ∀ (props : List (Line × List Line)) (acc : List (Line × Line)) (t : Line)
      (buf : List Line),
      (∀ e ∈ props, '>' ∉ e.1 ∧ pyStrip e.1 = e.1 ∧ ∀ l ∈ e.2, l.head? ≠ some '>') →
      (props.map (fun e => e.1)).Nodup →
      t ∉ acc.map (fun e => e.1) →
      (∀ k ∈ props.map (fun e => e.1), k ∉ acc.map (fun e => e.1) ∧ k ≠ t) →
      parseEntryAux (mkRecordLines props) (some t) buf acc
        = acc ++ (t, pyStrip (joinNl buf)) :: props.map (fun e => (e.1, propVal e.2)) := by
  intro props
  induction props with
  | nil =>
    intro acc t buf _ _ hfresh _
    simp [mkRecordLines, parseEntryAux, flushProp, propsInsert_fresh acc t _ hfresh]
  | cons e rest ih =>
    obtain ⟨t2, vs2⟩ := e
    intro acc t buf hwf hnd hfresh hkeys
    obtain ⟨hgt2, hstrip2, hvs2⟩ := hwf (t2, vs2) (by simp)
    have hlines : mkRecordLines ((t2, vs2) :: rest)
        = mkTagLine t2 :: (vs2 ++ mkRecordLines rest) := by
      simp [mkRecordLines]
    have hhead : (mkTagLine t2).head? = some '>' := rfl
    have htag : parseTagLine (mkTagLine t2) = some t2 := by
      rw [parseTagLine_mk t2 hgt2, hstrip2]
    have step : parseEntryAux (mkTagLine t2 :: (vs2 ++ mkRecordLines rest)) (some t) buf acc
        = parseEntryAux (vs2 ++ mkRecordLines rest) (some t2) []
            (flushProp acc (some t) buf) := by
      simp [parseEntryAux, hhead, htag]
    rw [hlines, step]
    rw [show flushProp acc (some t) buf = propsInsert acc t (pyStrip (joinNl buf)) from rfl]
    rw [propsInsert_fresh acc t _ hfresh]
    rw [parseEntryAux_values vs2 _ t2 [] _ hvs2]
    have hk2 := hkeys t2 (by simp)
    have hrestwf : ∀ e ∈ rest, '>' ∉ e.1 ∧ pyStrip e.1 = e.1
        ∧ ∀ l ∈ e.2, l.head? ≠ some '>' := fun x hx => hwf x (by simp [hx])
    rw [List.map_cons] at hnd
    have hrestnd : (rest.map (fun e => e.1)).Nodup := (List.nodup_cons.mp hnd).2
    have ht2notrest : t2 ∉ rest.map (fun e => e.1) := (List.nodup_cons.mp hnd).1
    have hfresh2 : t2 ∉ (acc ++ [(t, pyStrip (joinNl buf))]).map (fun e => e.1) := by
      simp only [List.map_append, List.mem_append, List.map_cons, List.map_nil,
        List.mem_singleton, List.mem_cons]
      rintro (hin | hin)
      · exact hk2.1 hin
      · simp at hin
        exact hk2.2 hin
    have hkeys2 : ∀ k ∈ rest.map (fun e => e.1),
        k ∉ (acc ++ [(t, pyStrip (joinNl buf))]).map (fun e => e.1) ∧ k ≠ t2 := by
      intro k hk
      have hkk := hkeys k (by simp [hk])
      refine ⟨?_, ?_⟩
      · simp only [List.map_append, List.mem_append, List.map_cons, List.map_nil,
          List.mem_singleton, List.mem_cons]
        rintro (hin | hin)
        · exact hkk.1 hin
        · simp at hin
          exact hkk.2 hin
      · intro hkt2
        exact ht2notrest (hkt2 ▸ hk)
    rw [ih (acc ++ [(t, pyStrip (joinNl buf))]) t2 ([] ++ vs2.map pyRstripCR)
      hrestwf hrestnd hfresh2 hkeys2]
    simp [propVal]

/-- C9: the SDF decoder yields one property map per record, records
being delimited by lines that strip to the `$$$$` sentinel, with a
final sentinel-less record still yielded; and within a record a
property opens at a `>` line with a bracketed tag, its value being the
stripped newline-join of the following lines (each with trailing `\r`
removed) up to the next property marker or the record boundary. -/
theorem c9_sdf_decoder :
    (∀ (blocks : List (List Line)),
        (∀ bl ∈ blocks, bl ≠ [] ∧ ∀ l ∈ bl, pyStrip l ≠ sdfSentinel) →
        iter_sdf_records (mkSdfLines blocks) = blocks.map parse_entry)
    ∧ (∀ (blocks : List (List Line)) (lastBlock : List Line),
        (∀ bl ∈ blocks, bl ≠ [] ∧ ∀ l ∈ bl, pyStrip l ≠ sdfSentinel) →
        lastBlock ≠ [] → (∀ l ∈ lastBlock, pyStrip l ≠ sdfSentinel) →
        iter_sdf_records (mkSdfLines blocks ++ lastBlock)
          = blocks.map parse_entry ++ [parse_entry lastBlock])
    ∧ (∀ (props : List (Line × List Line)),
        (∀ e ∈ props, '>' ∉ e.1 ∧ pyStrip e.1 = e.1 ∧ ∀ l ∈ e.2, l.head? ≠ some '>') →
        (props.map (fun e => e.1)).Nodup →
        parse_entry (mkRecordLines props) = props.map (fun e => (e.1, propVal e.2))) := by
  refine ⟨?_, ?_, ?_⟩
  · intro blocks h
    exact iterSdf_blocks blocks h
  · intro blocks lastBlock h hne hns
    exact iterSdf_blocks_tail blocks lastBlock h hne hns
  · intro props hwf hnd
    cases props with
    | nil => rfl
    | cons e rest =>
      obtain ⟨t, vs⟩ := e
      obtain ⟨hgt, hstrip, hvs⟩ := hwf (t, vs) (by simp)
      have hlines : mkRecordLines ((t, vs) :: rest)
          = mkTagLine t :: (vs ++ mkRecordLines rest) := by
        simp [mkRecordLines]
      have hhead : (mkTagLine t).head? = some '>' := rfl
      have htag : parseTagLine (mkTagLine t) = some t := by
        rw [parseTagLine_mk t hgt, hstrip]
      have step : parseEntryAux (mkTagLine t :: (vs ++ mkRecordLines rest)) none [] []
          = parseEntryAux (vs ++ mkRecordLines rest) (some t) [] [] := by
        simp [parseEntryAux, hhead, htag, flushProp]
      rw [parse_entry, hlines, step]
      rw [parseEntryAux_values vs _ t [] _ hvs]
      rw [List.map_cons] at hnd
      rw [parseEntryAux_props rest [] t ([] ++ vs.map pyRstripCR)
        (fun x hx => hwf x (by simp [hx]))
        (List.nodup_cons.mp hnd).2
        (by simp)
        (fun k hk => ⟨by simp, fun hkt => (List.nodup_cons.mp hnd).1 (hkt ▸ hk)⟩)]
      simp [propVal]

/-- Witness for C9: two one-line records with and without a trailing
sentinel, and one tagged property block. -/
theorem c9_sdf_decoder_witness :
    iter_sdf_records (mkSdfLines [[['C', 'C']], [['O']]])
      = [parse_entry [['C', 'C']], parse_entry [['O']]]
    ∧ iter_sdf_records (mkSdfLines [[['C', 'C']]] ++ [['O']])
      = [parse_entry [['C', 'C']], parse_entry [['O']]]
    ∧ parse_entry (mkRecordLines [(['T'], [['v', '1']])])
      = [(['T'], propVal [['v', '1']])] := by
  refine ⟨?_, ?_, ?_⟩
  · exact c9_sdf_decoder.1 [[['C', 'C']], [['O']]] (by decide)
  · simpa using c9_sdf_decoder.2.1 [[['C', 'C']]] [['O']] (by decide) (by decide) (by decide)
  · exact c9_sdf_decoder.2.2 [(['T'], [['v', '1']])] (by decide) (by decide)
